import Mathlib

/-!
Verification of the Sora-2-Invite-Watcher core (`Sora2Get.py`) against its
natural-language specification.  The Python source is shallowly embedded:
text is `List Char`, machine integers are `Int`, the jitter drawn by
`random.uniform(0, 1.0)` is a rational in `[0, 1]`, fallible operations
return `Option`, and the watch loop is a state-passing step function that
also emits a trace of observable events (notifications, sleeps, checks of
the RUNNING flag).
-/

namespace Sora2Get

/-! ## CodeExtractor (`extract_codes_from_text`, Sora2Get.py lines 83-94) -/

/-- Character-wise model of Python `str.upper()` (faithful on ASCII, which is
all the code-relevant alphabet `[A-Z0-9]` uses). -/
def pyUpper (t : List Char) : List Char := t.map Char.toUpper

/-- Model of the regex word-character class `\w` (ASCII range): letters,
digits and underscore.  `\b` in `CODE_RE = \b[A-Z0-9]{6}\b` is a boundary
between a word character and a non-word character. -/
def isWordChar (c : Char) : Bool := c.isAlphanum || c = '_'

/-- A character of the regex class `[A-Z0-9]`. -/
def isCodeChar (c : Char) : Bool :=
  (65 ≤ c.toNat && c.toNat ≤ 90) || (48 ≤ c.toNat && c.toNat ≤ 57)

/-- Splits text into the maximal runs of word characters, in textual order.
`acc` holds the characters of the current run, reversed. -/
def tokensAux : List Char → List Char → List (List Char)
  | [], acc => if acc.isEmpty then [] else [acc.reverse]
  | c :: rest, acc =>
    if isWordChar c then tokensAux rest (c :: acc)
    else if acc.isEmpty then tokensAux rest []
    else acc.reverse :: tokensAux rest []

/-- The maximal word-bounded tokens of a text, in textual order. -/
def tokens (t : List Char) : List (List Char) := tokensAux t []

/-- A match of `CODE_RE.findall` is exactly a maximal word-run of length 6
whose characters all lie in `[A-Z0-9]`: the surrounding `\b` anchors force
maximality, and a longer or shorter alphanumeric run has no internal word
boundary. -/
def code_re_findall (up : List Char) : List (List Char) :=
  (tokens up).filter (fun t => (t.length == 6) && t.all isCodeChar)

/-- Model of Python `needle in hay` (substring test): does `hay` start with
`needle`? -/
def startsWithSub : List Char → List Char → Bool
  | [], _ => true
  | _ :: _, [] => false
  | a :: as, b :: bs => (a == b) && startsWithSub as bs

/-- Model of Python `needle in hay` (substring containment). -/
def containsSub (needle : List Char) : List Char → Bool
  | [] => needle.isEmpty
  | c :: rest => startsWithSub needle (c :: rest) || containsSub needle rest

/-- The fixed stop-word set of `Sora2Get.py` (line 54). -/
def STOPWORDS : List (List Char) :=
  ["CENTER", "HEIGHT", "BORDER", "MARGIN", "SHRINK", "RADIUS", "SELECT",
   "COLUMN", "INLINE", "BUTTON", "ACTIVE", "HIDDEN", "NUMBER", "NORMAL",
   "WEBKIT"].map String.data

/-- Number of digit characters in a token (`sum(ch.isdigit() for ch in m)`,
ASCII digits). -/
def countDigits (m : List Char) : Nat := (m.filter Char.isDigit).length

/-- The garbled-unicode marker `"U002"`. -/
def markerU002 : List Char := ['U', '0', '0', '2']

/-- The garbled-unicode marker `"U003"`. -/
def markerU003 : List Char := ['U', '0', '0', '3']

/-- Model of `extract_codes_from_text(text, min_digits)`.  `text` is
`Option` because the Python coerces a `None` (or empty) argument through
`text or ""`. -/
def extract_codes_from_text (text : Option (List Char)) (min_digits : Int) :
    List (List Char) :=
  let up := pyUpper (text.getD [])
  if containsSub markerU003 up || containsSub markerU002 up then []
  else
    (code_re_findall up).filter
      (fun m => !(decide (m ∈ STOPWORDS)) && decide (min_digits ≤ (countDigits m : Int)))

/-! ## Theorems about the CodeExtractor -/

/-- C4: every token returned by `extract_codes_from_text(t, d)` is exactly 6
characters over `[A-Z0-9]`, is not a stop-word, contains at least `d` digit
characters, and the returned tokens are a sublist of (hence preserve the
order of) the word-bounded tokens of the uppercased input text. -/
theorem extract_tokens_sound (t : List Char) (d : Int) :
    (∀ m ∈ extract_codes_from_text (some t) d,
        m.length = 6 ∧ (∀ ch ∈ m, isCodeChar ch = true) ∧
        m ∉ STOPWORDS ∧ d ≤ (countDigits m : Int)) ∧
    List.Sublist (extract_codes_from_text (some t) d) (tokens (pyUpper t)) := by
  unfold extract_codes_from_text
  simp only [Option.getD_some]
  split
  · exact ⟨by simp, List.nil_sublist _⟩
  · constructor
    · intro m hm
      rw [List.mem_filter] at hm
      obtain ⟨hm1, hm2⟩ := hm
      unfold code_re_findall at hm1
      rw [List.mem_filter] at hm1
      obtain ⟨_, hq⟩ := hm1
      rw [Bool.and_eq_true] at hq hm2
      obtain ⟨hlen, hchars⟩ := hq
      obtain ⟨hstop, hdig⟩ := hm2
      refine ⟨by simpa using hlen, ?_, ?_, ?_⟩
      · intro ch hch
        exact List.all_eq_true.mp hchars ch hch
      · simpa using hstop
      · exact of_decide_eq_true hdig
    · exact (List.filter_sublist _).trans (List.filter_sublist _)

/-- C4 witness: on the text `"Border ABC123 done"` with threshold 1, the
returned token `"ABC123"` has all the claimed properties. -/
theorem extract_tokens_sound_witness :
    "ABC123".data ∈ extract_codes_from_text (some "Border ABC123 done".data) 1 ∧
    ("ABC123".data.length = 6 ∧ (∀ ch ∈ "ABC123".data, isCodeChar ch = true) ∧
     "ABC123".data ∉ STOPWORDS ∧ (1 : Int) ≤ (countDigits "ABC123".data : Int)) :=
  ⟨by decide,
   (extract_tokens_sound "Border ABC123 done".data 1).1 "ABC123".data (by decide)⟩

/-- C5: if the uppercased input text contains the marker `"U002"` or
`"U003"` (as every backslash-u0021 / backslash-u0032 style escaped-unicode
artifact does after upper-casing), the extractor rejects the whole text and
returns the empty sequence, for every digit threshold. -/
theorem extract_marker_rejects (t : List Char) (d : Int)
    (h : containsSub markerU002 (pyUpper t) = true ∨
         containsSub markerU003 (pyUpper t) = true) :
    extract_codes_from_text (some t) d = [] := by
  unfold extract_codes_from_text
  rcases h with h | h <;> simp [h]

/-- C5 witness: the escaped-unicode artifact text backslash-u0021 (the six
characters backslash, u, 0, 0, 2, 1) is rejected outright. -/
theorem extract_marker_rejects_witness :
    containsSub markerU002 (pyUpper ['\\', 'u', '0', '0', '2', '1']) = true ∧
    extract_codes_from_text (some ['\\', 'u', '0', '0', '2', '1']) 0 = [] :=
  ⟨by decide,
   extract_marker_rejects ['\\', 'u', '0', '0', '2', '1'] 0 (Or.inl (by decide))⟩

/-- C9: the extractor is total on degenerate input: both `None` and the
empty string (which the source coerces through `text or ""`) yield the
empty sequence, for every digit threshold. -/
theorem extract_degenerate_total (d : Int) :
    extract_codes_from_text none d = [] ∧
    extract_codes_from_text (some []) d = [] :=
  ⟨rfl, rfl⟩

/-! ## StateStore (`read_last_code` / `write_last_code`, lines 72-81)

The persisted state is the content of `last_code.json`, modeled as
`Option (List Char)`: `none` is a missing file, `some text` its text.
`write_last_code` produces exactly the text of
`json.dumps({"last_code": code}, ensure_ascii=False, indent=2)`;
`read_last_code` parses it back with a JSON(-subset) reader and looks up
the `"last_code"` key, any failure mapping to `none` as in the source. -/

/-- Lowercase hex digit, as used by `json.dumps` for control characters. -/
def hexDig (n : Nat) : Char := if n < 10 then Char.ofNat (48 + n) else Char.ofNat (87 + n)

/-- The escaping `json.dumps` applies to one character of a string value
(`ensure_ascii=False`): quote and backslash are backslash-escaped, the
common control characters get their short escapes, other control
characters become backslash-u00XX, everything else is emitted verbatim. -/
def jsonEscapeChar (c : Char) : List Char :=
  if c = '"' then ['\\', '"']
  else if c = '\\' then ['\\', '\\']
  else if c = '\n' then ['\\', 'n']
  else if c = '\t' then ['\\', 't']
  else if c = '\r' then ['\\', 'r']
  else if c = Char.ofNat 8 then ['\\', 'b']
  else if c = Char.ofNat 12 then ['\\', 'f']
  else if c.toNat < 32 then
    ['\\', 'u', '0', '0', hexDig (c.toNat / 16), hexDig (c.toNat % 16)]
  else [c]

/-- `json.dumps` escaping of a whole string value. -/
def jsonEscape : List Char → List Char
  | [] => []
  | c :: rest => jsonEscapeChar c ++ jsonEscape rest

/-- The JSON object key used by the state store. -/
def LAST_CODE_KEY : List Char := ['l', 'a', 's', 't', '_', 'c', 'o', 'd', 'e']

/-- The exact text of `json.dumps({"last_code": code}, ensure_ascii=False,
indent=2)`: an opening brace, a newline, two spaces of indent, the quoted
key, a colon and space, the quoted escaped value, a newline and the
closing brace. -/
def json_dumps_last_code (code : List Char) : List Char :=
  '{' :: '\n' :: ' ' :: ' ' :: '"' :: (LAST_CODE_KEY ++
    ('"' :: ':' :: ' ' :: '"' :: (jsonEscape code ++ ['"', '\n', '}'])))

/-- JSON whitespace. -/
def isWs (c : Char) : Bool := c = ' ' || c = '\n' || c = '\t' || c = '\r'

/-- Drop leading JSON whitespace. -/
def skipWs : List Char → List Char
  | [] => []
  | c :: rest => if isWs c then skipWs rest else c :: rest

/-- Inverse of the short string escapes.  The escapes this reader does not
implement (backslash-u, backslash-b, backslash-f) make the parse fail,
i.e. the file is treated as corrupt — `read_last_code` then returns `none`,
which is sound for the read-failure policy of the source. -/
def unescapeChar (e : Char) : Option Char :=
  if e = '"' then some '"'
  else if e = '\\' then some '\\'
  else if e = '/' then some '/'
  else if e = 'n' then some '\n'
  else if e = 't' then some '\t'
  else if e = 'r' then some '\r'
  else none

/-- Parse the body of a JSON string up to (and consuming) the closing
quote; returns the decoded characters and the remaining input. -/
def parseJStringBody : List Char → Option (List Char × List Char)
  | [] => none
  | '"' :: rest => some ([], rest)
  | '\\' :: [] => none
  | '\\' :: e :: rest2 =>
    match unescapeChar e, parseJStringBody rest2 with
    | some u, some (s, r) => some (u :: s, r)
    | _, _ => none
  | c :: rest =>
    match parseJStringBody rest with
    | some (s, r) => some (c :: s, r)
    | none => none

/-- Parse a complete JSON string (opening quote included). -/
def parseJString (l : List Char) : Option (List Char × List Char) :=
  match l with
  | c :: rest => if c = '"' then parseJStringBody rest else none
  | [] => none

/-- Parse the fields of a JSON object of string keys and string values,
starting after the opening brace (at a nonempty field list) and consuming
the closing brace.  Fuel bounds the recursion over commas. -/
def parseFields : Nat → List Char → Option (List (List Char × List Char) × List Char)
  | 0, _ => none
  | fuel + 1, l =>
    match parseJString (skipWs l) with
    | none => none
    | some (key, r1) =>
      match skipWs r1 with
      | ':' :: r2 =>
        match parseJString (skipWs r2) with
        | none => none
        | some (val, r3) =>
          match skipWs r3 with
          | '}' :: r4 => some ([(key, val)], r4)
          | ',' :: r4 =>
            match parseFields fuel r4 with
            | some (fs, r5) => some ((key, val) :: fs, r5)
            | none => none
          | _ => none
      | _ => none

/-- Model of `json.loads` restricted to the shape the store writes: one
object with string keys and string values.  Any other input is a parse
failure (`none`), which `read_last_code` treats as a corrupt file. -/
def json_loads_obj (l : List Char) : Option (List (List Char × List Char)) :=
  match skipWs l with
  | '{' :: r =>
    match skipWs r with
    | '}' :: r2 => if (skipWs r2).isEmpty then some [] else none
    | _ =>
      match parseFields (l.length + 1) r with
      | some (fs, rest) => if (skipWs rest).isEmpty then some fs else none
      | none => none
  | _ => none

/-- Model of Python `dict.get(key)` on the parsed object: with duplicate
keys `json.loads` keeps the last occurrence. -/
def pyDictGet (fields : List (List Char × List Char)) (key : List Char) :
    Option (List Char) :=
  (fields.reverse.find? (fun p => p.1 == key)).map (fun p => p.2)

/-- `write_last_code(code)`: full overwrite of the record with the dumped
JSON object, whatever the previous content was. -/
def write_last_code (code : List Char) (_st : Option (List Char)) :
    Option (List Char) :=
  some (json_dumps_last_code code)

/-- `read_last_code()`: `none` when the file is missing, `none` when the
content fails to parse (the source swallows the exception), otherwise the
value of the `"last_code"` key (absent key gives `none`, as `dict.get`). -/
def read_last_code (st : Option (List Char)) : Option (List Char) :=
  match st with
  | none => none
  | some text =>
    match json_loads_obj text with
    | none => none
    | some fields => pyDictGet fields LAST_CODE_KEY

/-- Reading back an escaped string value: the decoder inverts `jsonEscape`
on every string whose characters are not control characters. -/
theorem parseJStringBody_escaped (s : List Char) (rest : List Char)
    (h : ∀ ch ∈ s, 32 ≤ ch.toNat) :
    parseJStringBody (jsonEscape s ++ '"' :: rest) = some (s, rest) := by
  induction s with
  | nil => rfl
  | cons ch tl ih =>
    have h32 : 32 ≤ ch.toNat := h ch (List.mem_cons_self ch tl)
    have htl : ∀ x ∈ tl, 32 ≤ x.toNat := fun x hx => h x (List.mem_cons_of_mem ch hx)
    have ih2 := ih htl
    by_cases hq : ch = '"'
    · subst hq
      simp [jsonEscape, jsonEscapeChar, parseJStringBody, unescapeChar, ih2]
    · by_cases hb : ch = '\\'
      · subst hb
        simp [jsonEscape, jsonEscapeChar, parseJStringBody, unescapeChar, ih2]
      · have hn : ch ≠ '\n' := fun e => absurd (e ▸ h32) (by decide)
        have ht : ch ≠ '\t' := fun e => absurd (e ▸ h32) (by decide)
        have hr : ch ≠ '\r' := fun e => absurd (e ▸ h32) (by decide)
        have h8 : ch ≠ Char.ofNat 8 := fun e => absurd (e ▸ h32) (by decide)
        have h12 : ch ≠ Char.ofNat 12 := fun e => absurd (e ▸ h32) (by decide)
        have hlt : ¬ ch.toNat < 32 := by omega
        simp [jsonEscape, jsonEscapeChar, hq, hb, hn, ht, hr, h8, h12, hlt,
              parseJStringBody, ih2]

/-- Parsing the exact text produced by `json_dumps_last_code` recovers the
one-field object. -/
theorem json_loads_dumps (c : List Char) (h : ∀ ch ∈ c, 32 ≤ ch.toNat) :
    json_loads_obj (json_dumps_last_code c) = some [(LAST_CODE_KEY, c)] := by
  have hkeyesc : jsonEscape LAST_CODE_KEY = LAST_CODE_KEY := by decide
  have hkey := parseJStringBody_escaped LAST_CODE_KEY
      (':' :: ' ' :: '"' :: (jsonEscape c ++ ['"', '\n', '}'])) (by decide)
  rw [hkeyesc] at hkey
  have hval := parseJStringBody_escaped c ['\n', '}'] h
  unfold json_loads_obj json_dumps_last_code
  simp [skipWs, isWs, parseFields, parseJString, hkey, hval]

/-- Write-then-read helper: reading immediately after a write returns the
just-written code, for every code without control characters. -/
theorem read_write_aux (c : List Char) (h : ∀ ch ∈ c, 32 ≤ ch.toNat)
    (st : Option (List Char)) :
    read_last_code (write_last_code c st) = some c := by
  have hload := json_loads_dumps c h
  simp [read_last_code, write_last_code, hload, pyDictGet, List.find?]

/-! ## Theorems about the StateStore -/

/-- C8: for every code string (of printable characters — in particular
every 6-character `[A-Z0-9]` code) and every prior store content, writing
the code and then immediately reading the store returns exactly that
code. -/
theorem write_read_roundtrip (c : List Char) (h : ∀ ch ∈ c, 32 ≤ ch.toNat)
    (st : Option (List Char)) :
    read_last_code (write_last_code c st) = some c :=
  read_write_aux c h st

/-- C8 witness: writing the code `"AB12CD"` over an empty store and reading
back returns `"AB12CD"`. -/
theorem write_read_roundtrip_witness :
    read_last_code (write_last_code "AB12CD".data none) = some "AB12CD".data :=
  write_read_roundtrip "AB12CD".data (by decide) none

/-! ## ApiFetcher (`get_latest_code_from_api`, Sora2Get.py lines 100-145)

The HTTP interaction is embedded as a value describing what
`session.get` produced: a raised `requests.RequestException`, or a
response with a status code and a body that either fails `r.json()` or
decodes to the expected list of comment objects. -/

/-- A comment object of the API response; `body` / `rendered_body` are the
two text fields the source inspects, absent or null fields modeled as
`none` (the source coerces them through `c.get(field) or ""`). -/
structure ApiComment where
  body : Option (List Char)
  rendered_body : Option (List Char)

/-- The decoded body of a response: `r.json()` raised, or produced the
expected list of comment objects. -/
inductive JsonBody where
  | invalid
  | valid (data : List ApiComment)

/-- What `session.get` produced: a transport error
(`requests.RequestException`) or a response with a status code and body. -/
inductive HttpResult where
  | transportError
  | response (status : Nat) (body : JsonBody)

/-- `requests.Response.ok`: true iff `raise_for_status()` would not raise,
i.e. iff the status code is outside `[400, 600)`. -/
def requests_ok (status : Nat) : Bool :=
  decide (status < 400) || decide (600 ≤ status)

/-- Scan one comment: the plain body first, then the rendered body, each
through the extractor; first non-empty extraction wins, returning its
first code. -/
def scanComment (minDigits : Int) (c : ApiComment) : Option (List Char) :=
  match extract_codes_from_text c.body minDigits with
  | code :: _ => some code
  | [] =>
    match extract_codes_from_text c.rendered_body minDigits with
    | code :: _ => some code
    | [] => none

/-- Scan the comment list (assumed newest-first) for the first comment
yielding a code. -/
def scanComments (minDigits : Int) : List ApiComment → Option (List Char)
  | [] => none
  | c :: rest =>
    match scanComment minDigits c with
    | some code => some code
    | none => scanComments minDigits rest

/-- Model of `get_latest_code_from_api()`.  `hasApi` is whether
`QIITA_API` is configured (an item id was resolved); `minDigits` is the
configured `REQUIRE_MIN_DIGITS`. -/
def get_latest_code_from_api (minDigits : Int) (hasApi : Bool)
    (r : HttpResult) : Option (List Char) :=
  if !hasApi then none
  else
    match r with
    | .transportError => none
    | .response status body =>
      if status = 401 then none
      else if status = 429 then none
      else if !requests_ok status then none
      else
        match body with
        | .invalid => none
        | .valid data => scanComments minDigits data

/-! ## Theorems about the ApiFetcher -/

/-- C7 counterexample: a non-2xx status below 400 is NOT treated as "no
code found" — `requests.Response.ok` only fails for statuses in
`[400, 600)`, so a 304 response whose body decodes to a comment list
yields a code instead of `None`. -/
theorem api_nonok_status_below_400_yields_code :
    get_latest_code_from_api 1 true
        (.response 304 (.valid [⟨some "AB12CD".data, none⟩]))
      = some "AB12CD".data ∧ ¬ (200 ≤ 304 ∧ 304 ≤ 299) := by decide

/-- C7 (amended): the API fetch returns "no code found" (`none`), never
raising, on any transport error, on any HTTP status in `[400, 600)`
(including 401 and 429), and on any JSON-decode failure of the response
body; statuses outside `[400, 600)` are treated as success. -/
theorem api_errors_return_none (minDigits : Int) (hasApi : Bool) :
    get_latest_code_from_api minDigits hasApi .transportError = none ∧
    (∀ status body, 400 ≤ status → status ≤ 599 →
        get_latest_code_from_api minDigits hasApi (.response status body) = none) ∧
    (∀ status,
        get_latest_code_from_api minDigits hasApi (.response status .invalid)
          = none) := by
  cases hasApi with
  | false => refine ⟨rfl, fun _ _ _ _ => rfl, fun _ => rfl⟩
  | true =>
    refine ⟨rfl, ?_, ?_⟩
    · intro status body h4 h5
      have hok : requests_ok status = false := by
        simp [requests_ok]
        omega
      by_cases h1 : status = 401
      · simp [get_latest_code_from_api, h1]
      · by_cases h2 : status = 429
        · simp [get_latest_code_from_api, h1, h2]
        · simp [get_latest_code_from_api, h1, h2, hok]
    · intro status
      by_cases h1 : status = 401
      · simp [get_latest_code_from_api, h1]
      · by_cases h2 : status = 429
        · simp [get_latest_code_from_api, h1, h2]
        · cases hok : requests_ok status <;>
            simp [get_latest_code_from_api, h1, h2, hok]

/-- C7 witness: a 503 response (whatever its body) maps to `none`. -/
theorem api_errors_return_none_witness :
    get_latest_code_from_api 1 true (.response 503 (.valid [])) = none :=
  (api_errors_return_none 1 true).2.1 503 (.valid []) (by decide) (by decide)

/-! ## WatchLoop (`main_loop`, Sora2Get.py lines 301-350)

One iteration of the `while RUNNING` loop is embedded as a step function
over the loop state (in-memory `last`, `backoff`, and the persisted store
content), driven by the outcome of the fallible part of the cycle and
emitting a trace of observable events.  `FetchOutcome.ok latest` is a
cycle in which no exception escapes the `try` block and the API/HTML
fetch produced `latest`; `FetchOutcome.exn pre j` is a cycle in which an
exception escapes (from the fetch, the notification, or the state write
— the only raisable statements before the polite sleep; `pre` records the
notification already emitted if the raise happened after `notify`, and
`j` is the jitter the handler draws).  The backoff reset
`backoff = POLL_SECONDS` is the last statement of the new-code branch
after all raisable calls, so an escaping exception always leaves
`backoff` at its value from the start of the cycle, as modeled. -/

/-- Observable actions of one loop iteration: a delivered notification, a
single uninterrupted `time.sleep(secs)`, or a read of the `RUNNING`
interruption flag. -/
inductive Event where
  | notify (code : List Char)
  | sleepOnce (secs : Int)
  | checkFlag
deriving DecidableEq

/-- Is the event a notification? -/
def isNotifyEvent : Event → Bool
  | .notify _ => true
  | _ => false

/-- Is the event a sleep? -/
def isSleepEvent : Event → Bool
  | .sleepOnce _ => true
  | _ => false

/-- The mutable state the loop carries across cycles: the in-memory
`last`, the current `backoff` seconds, and the content of the persisted
state file. -/
structure LoopState where
  last : Option (List Char)
  backoff : Int
  store : Option (List Char)
deriving DecidableEq

/-- Outcome of the fallible part of one cycle (see section comment). -/
inductive FetchOutcome where
  | ok (latest : Option (List Char))
  | exn (preNotify : Option (List Char)) (jitter : ℚ)

/-- Result of one loop iteration: the new state, the events the iteration
emitted, and whether it executed `break` (the `single_run` exit). -/
structure CycleResult where
  state : LoopState
  events : List Event
  brk : Bool

/-- The polite sleep `for _ in range(POLL_SECONDS): if not RUNNING: break;
time.sleep(1)`: each of up to `n` rounds first checks the flag and, if it
is still set, sleeps one second.  `running i` is the flag's value at the
`i`-th check of this sleep. -/
def politeSleep : Nat → (Nat → Bool) → List Event
  | 0, _ => []
  | n + 1, running =>
    Event.checkFlag ::
      (if running 0 then Event.sleepOnce 1 :: politeSleep n (fun i => running (i + 1))
       else [])

/-- Python `int()` applied to a nonnegative-or-negative rational:
truncation toward zero (`Int.tdiv` of numerator by denominator). -/
def pyTrunc (q : ℚ) : Int := q.num.tdiv q.den

/-- The backoff update of the exception handler (line 348):
`backoff = min(int(backoff * 2 + jitter), 300)`. -/
def backoffFailStep (b : Int) (j : ℚ) : Int := min (pyTrunc (2 * (b : ℚ) + j)) 300

/-- One iteration of the `while RUNNING` loop body (lines 314-350). -/
def runCycle (poll : Int) (singleRun : Bool) (running : Nat → Bool)
    (o : FetchOutcome) (s : LoopState) : CycleResult :=
  match o with
  | .ok latest =>
    let step : LoopState × List Event :=
      match latest with
      | some code =>
        if some code = s.last then (s, [])
        else ({ last := some code, backoff := poll,
                store := write_last_code code s.store },
              [Event.notify code])
      | none => (s, [])
    if singleRun then ⟨step.1, step.2, true⟩
    else ⟨step.1, step.2 ++ politeSleep poll.toNat running, false⟩
  | .exn pre j =>
    let b := backoffFailStep s.backoff j
    ⟨⟨s.last, b, s.store⟩,
     (match pre with | some code => [Event.notify code] | none => []) ++
       [Event.sleepOnce b],
     false⟩

/-- The `while RUNNING` loop, driven by oracles: `outcomes k` is the
outcome of the `k`-th cycle, `guard k` the value of `RUNNING` at its loop
test, `runnings k` the flag trace during its polite sleep.  Returns the
final state and the number of cycle bodies executed (`fuel` bounds the
iteration). -/
def runLoop (poll : Int) (singleRun : Bool) (outcomes : Nat → FetchOutcome)
    (guard : Nat → Bool) (runnings : Nat → Nat → Bool) :
    Nat → Nat → LoopState → LoopState × Nat
  | 0, _, s => (s, 0)
  | fuel + 1, k, s =>
    if guard k then
      let r := runCycle poll singleRun (runnings k) (outcomes k) s
      if r.brk then (r.state, 1)
      else
        let rest := runLoop poll singleRun outcomes guard runnings fuel (k + 1) r.state
        (rest.1, rest.2 + 1)
    else (s, 0)

/-- The loop state after `i` consecutive erroring cycles with jitter
sequence `j`, starting from `s`. -/
def afterFailures (poll : Int) (j : Nat → ℚ) (s : LoopState) : Nat → LoopState
  | 0 => s
  | i + 1 =>
    (runCycle poll false (fun _ => true) (.exn none (j i))
      (afterFailures poll j s i)).state

/-! ## Helper lemmas about the loop embedding -/

/-- A polite sleep emits no notifications. -/
theorem politeSleep_filter_notify (n : Nat) (r : Nat → Bool) :
    (politeSleep n r).filter isNotifyEvent = [] := by
  induction n generalizing r with
  | zero => rfl
  | succ k ih => by_cases h : r 0 <;> simp [politeSleep, h, isNotifyEvent, ih]

/-- A polite sleep is a sequence of rounds, each a flag check possibly
followed by a one-second sleep: every sleep it performs lasts one second
and is immediately preceded by a check of the interruption flag. -/
theorem politeSleep_blocks (n : Nat) (r : Nat → Bool) :
    ∃ bs : List (List Event), politeSleep n r = bs.flatten ∧
      ∀ b ∈ bs, b = [Event.checkFlag] ∨ b = [Event.checkFlag, Event.sleepOnce 1] := by
  induction n generalizing r with
  | zero => exact ⟨[], rfl, by simp⟩
  | succ k ih =>
    by_cases h : r 0
    · obtain ⟨bs, hbs, hall⟩ := ih (fun i => r (i + 1))
      refine ⟨[Event.checkFlag, Event.sleepOnce 1] :: bs, ?_, ?_⟩
      · simp [politeSleep, h, hbs]
      · intro b hb
        rcases List.mem_cons.mp hb with hb | hb
        · exact Or.inr hb
        · exact hall b hb
    · refine ⟨[[Event.checkFlag]], ?_, ?_⟩
      · simp [politeSleep, h]
      · intro b hb
        simp at hb
        exact Or.inl hb

/-- On nonnegative rationals, Python truncation agrees with the floor. -/
theorem pyTrunc_eq_floor (q : ℚ) (hq : 0 ≤ q) : pyTrunc q = ⌊q⌋ := by
  unfold pyTrunc
  rw [Int.tdiv_eq_ediv (Rat.num_nonneg.mpr hq) (by positivity), Rat.floor_def]

/-- Lower bound for the truncation of a nonnegative rational. -/
theorem le_pyTrunc (z : Int) (q : ℚ) (hq : 0 ≤ q) (h : (z : ℚ) ≤ q) :
    z ≤ pyTrunc q := by
  rw [pyTrunc_eq_floor q hq]
  exact Int.le_floor.mpr h

/-- The handler's backoff update keeps the backoff nonnegative. -/
theorem backoffFailStep_nonneg (b : Int) (j : ℚ) (hb : 0 ≤ b) (hj : 0 ≤ j) :
    0 ≤ backoffFailStep b j := by
  have hbq : (0 : ℚ) ≤ (b : ℚ) := by exact_mod_cast hb
  have hq : (0 : ℚ) ≤ 2 * (b : ℚ) + j := by linarith
  exact le_min (le_pyTrunc 0 _ hq (by exact_mod_cast hq)) (by norm_num)

/-- The handler's backoff update never exceeds the 300-second cap. -/
theorem backoffFailStep_le_cap (b : Int) (j : ℚ) : backoffFailStep b j ≤ 300 :=
  min_le_right _ _

/-- Below the cap, the handler's backoff update is non-decreasing. -/
theorem le_backoffFailStep (b : Int) (j : ℚ) (hb : 0 ≤ b) (hcap : b ≤ 300)
    (hj : 0 ≤ j) : b ≤ backoffFailStep b j := by
  have hbq : (0 : ℚ) ≤ (b : ℚ) := by exact_mod_cast hb
  have hq : (0 : ℚ) ≤ 2 * (b : ℚ) + j := by linarith
  refine le_min (le_pyTrunc b _ hq (by linarith)) hcap

/-- Unfolding one erroring cycle of `afterFailures`. -/
theorem afterFailures_succ_backoff (poll : Int) (j : Nat → ℚ) (s : LoopState)
    (i : Nat) :
    (afterFailures poll j s (i + 1)).backoff =
      backoffFailStep ((afterFailures poll j s i).backoff) (j i) := rfl

/-- The backoff stays nonnegative along a run of erroring cycles. -/
theorem afterFailures_backoff_nonneg (poll : Int) (j : Nat → ℚ) (s : LoopState)
    (hb : 0 ≤ s.backoff) (hj : ∀ i, 0 ≤ j i ∧ j i ≤ 1) (i : Nat) :
    0 ≤ (afterFailures poll j s i).backoff := by
  induction i with
  | zero => exact hb
  | succ m ih =>
    rw [afterFailures_succ_backoff]
    exact backoffFailStep_nonneg _ _ ih (hj m).1

/-! ## Theorems about the WatchLoop -/

/-- C1: in a cycle that fetches a code: if it equals the last-notified
code, no notification is delivered and the persisted store is unchanged;
if it differs (also when no prior code exists, `s.last = none`), exactly
one notification carrying that code is delivered, the store is overwritten
with it, and reading the store afterwards returns it. -/
theorem cycle_notify_dedup (poll : Int) (singleRun : Bool) (running : Nat → Bool)
    (s : LoopState) (c : List Char) :
    (some c = s.last →
      ((runCycle poll singleRun running (.ok (some c)) s).events.filter isNotifyEvent
          = [] ∧
       (runCycle poll singleRun running (.ok (some c)) s).state.store = s.store)) ∧
    (some c ≠ s.last →
      ((runCycle poll singleRun running (.ok (some c)) s).events.filter isNotifyEvent
          = [Event.notify c] ∧
       (runCycle poll singleRun running (.ok (some c)) s).state.store
          = write_last_code c s.store ∧
       ((∀ ch ∈ c, 32 ≤ ch.toNat) →
         read_last_code (runCycle poll singleRun running (.ok (some c)) s).state.store
            = some c))) := by
  constructor
  · intro heq
    cases singleRun <;>
      simp [runCycle, heq, politeSleep_filter_notify, isNotifyEvent]
  · intro hne
    have hstore : (runCycle poll singleRun running (.ok (some c)) s).state.store
        = write_last_code c s.store := by
      cases singleRun <;> simp [runCycle, hne]
    refine ⟨?_, hstore, ?_⟩
    · cases singleRun <;>
        simp [runCycle, hne, politeSleep_filter_notify, isNotifyEvent]
    · intro hpl
      rw [hstore]
      exact read_write_aux c hpl s.store

/-- C1 witness: with prior code `"AB12CD"` and fetched code `"XY98ZZ"`,
exactly one notification with `"XY98ZZ"` is delivered and the store then
reads back `"XY98ZZ"`. -/
theorem cycle_notify_dedup_witness :
    (runCycle 2 false (fun _ => true) (.ok (some "XY98ZZ".data))
        ⟨some "AB12CD".data, 2, none⟩).events.filter isNotifyEvent
      = [Event.notify "XY98ZZ".data] ∧
    read_last_code (runCycle 2 false (fun _ => true) (.ok (some "XY98ZZ".data))
        ⟨some "AB12CD".data, 2, none⟩).state.store = some "XY98ZZ".data := by
  have h := (cycle_notify_dedup 2 false (fun _ => true)
      ⟨some "AB12CD".data, 2, none⟩ "XY98ZZ".data).2 (by decide)
  exact ⟨h.1, h.2.2 (by decide)⟩

/-- C2 counterexample: a successful cycle that finds no code does not
reset the backoff to the base poll interval — with base interval 2 and
current backoff 8 (as after two consecutive failures), the backoff after
the idle cycle is still 8, not 2. -/
theorem backoff_not_reset_on_idle_cycle :
    (runCycle 2 false (fun _ => true) (.ok none) ⟨none, 8, none⟩).state.backoff = 8 ∧
    (8 : Int) ≠ 2 := by decide

/-- C2 (amended): the backoff is reset to the base poll interval exactly
by a successful cycle that finds a new (different) code; successful cycles
that find no code, or the same code as last notified, leave the backoff
unchanged. -/
theorem backoff_reset_only_on_new_code (poll : Int) (singleRun : Bool)
    (running : Nat → Bool) (s : LoopState) :
    (∀ c, some c ≠ s.last →
        (runCycle poll singleRun running (.ok (some c)) s).state.backoff = poll) ∧
    (runCycle poll singleRun running (.ok none) s).state.backoff = s.backoff ∧
    (∀ c, some c = s.last →
        (runCycle poll singleRun running (.ok (some c)) s).state.backoff
          = s.backoff) := by
    refine ⟨fun c h => ?_, ?_, fun c h => ?_⟩
    · cases singleRun <;> simp [runCycle, h]
    · cases singleRun <;> simp [runCycle]
    · cases singleRun <;> simp [runCycle, h]

/-- C2 witness: a new-code cycle at backoff 8 resets the backoff to the
base interval 2. -/
theorem backoff_reset_only_on_new_code_witness :
    (runCycle 2 false (fun _ => true) (.ok (some "XY98ZZ".data))
        ⟨some "AB12CD".data, 8, none⟩).state.backoff = 2 :=
  (backoff_reset_only_on_new_code 2 false (fun _ => true)
      ⟨some "AB12CD".data, 8, none⟩).1 "XY98ZZ".data (by decide)

/-- C3 (code bug): with the single-run flag set, a cycle that raises does
not exit the loop — the `break` sits inside the `try` after the success
path, so the handler backs off and polls again.  Concretely, when cycle 0
errors and cycle 1 succeeds, two cycle bodies execute under `--once`
(first conjunct), whereas a first cycle that completes without raising
does exit after exactly one cycle (second conjunct), which is what the
flag's own help text (`"Run one poll then exit"`) promises for every
cycle. -/
theorem once_flag_retries_after_error :
    (runLoop 2 true (fun k => if k = 0 then .exn none 0 else .ok none)
        (fun _ => true) (fun _ _ => true) 3 0 ⟨none, 2, none⟩).2 = 2 ∧
    (runLoop 2 true (fun _ => .ok none) (fun _ => true) (fun _ _ => true)
        3 0 ⟨none, 2, none⟩).2 = 1 := by decide

/-- C6: starting from any nonnegative backoff, along any run of
consecutive erroring cycles (jitter in `[0,1]` as drawn by
`random.uniform(0, 1.0)`), the backoff after each erroring cycle never
exceeds the 300-second cap and is non-decreasing from each erroring cycle
to the next; and the first failure sets it to
`min(int(backoff * 2 + jitter), 300)` exactly. -/
theorem backoff_monotone_capped (poll : Int) (j : Nat → ℚ) (s : LoopState)
    (hb : 0 ≤ s.backoff) (hj : ∀ i, 0 ≤ j i ∧ j i ≤ 1) :
    (∀ i, 1 ≤ i →
        (afterFailures poll j s i).backoff ≤ (afterFailures poll j s (i + 1)).backoff ∧
        (afterFailures poll j s i).backoff ≤ 300) ∧
    (afterFailures poll j s 1).backoff
      = min (pyTrunc (2 * (s.backoff : ℚ) + j 0)) 300 := by
  constructor
  · intro i hi
    obtain ⟨m, rfl⟩ : ∃ m, i = m + 1 := ⟨i - 1, by omega⟩
    have hcap : (afterFailures poll j s (m + 1)).backoff ≤ 300 := by
      rw [afterFailures_succ_backoff]
      exact backoffFailStep_le_cap _ _
    have hnn := afterFailures_backoff_nonneg poll j s hb hj (m + 1)
    refine ⟨?_, hcap⟩
    rw [afterFailures_succ_backoff poll j s (m + 1)]
    exact le_backoffFailStep _ _ hnn hcap (hj (m + 1)).1
  · rfl

/-- C6 witness: from base backoff 2 with zero jitter, the backoff after
the first failure is below the one after the second and below the cap. -/
theorem backoff_monotone_capped_witness :
    (afterFailures 2 (fun _ => 0) ⟨none, 2, none⟩ 1).backoff ≤
      (afterFailures 2 (fun _ => 0) ⟨none, 2, none⟩ 2).backoff ∧
    (afterFailures 2 (fun _ => 0) ⟨none, 2, none⟩ 1).backoff ≤ 300 :=
  (backoff_monotone_capped 2 (fun _ => 0) ⟨none, 2, none⟩ (by decide)
      (fun _ => ⟨le_refl 0, by norm_num⟩)).1 1 (by decide)

/-- C10: after a cycle that raises, the loop performs exactly one sleep —
a single uninterrupted sleep of the whole (capped) new backoff — and never
reads the interruption flag within the cycle; whereas a normal cycle's
events end in polite-sleep rounds in which every sleep lasts one second
and is immediately preceded by a check of the flag. -/
theorem error_sleep_uninterrupted (poll : Int) (singleRun : Bool)
    (running : Nat → Bool) (s : LoopState) (pre : Option (List Char)) (j : ℚ)
    (latest : Option (List Char)) :
    ((runCycle poll singleRun running (.exn pre j) s).events.filter isSleepEvent
        = [Event.sleepOnce (backoffFailStep s.backoff j)] ∧
     Event.checkFlag ∉ (runCycle poll singleRun running (.exn pre j) s).events ∧
     backoffFailStep s.backoff j ≤ 300) ∧
    (∃ (acts : List Event) (bs : List (List Event)),
        (runCycle poll false running (.ok latest) s).events = acts ++ bs.flatten ∧
        (∀ e ∈ acts, isNotifyEvent e = true) ∧
        (∀ b ∈ bs, b = [Event.checkFlag] ∨ b = [Event.checkFlag, Event.sleepOnce 1])) := by
  refine ⟨⟨?_, ?_, backoffFailStep_le_cap _ _⟩, ?_⟩
  · cases pre <;> simp [runCycle, isSleepEvent]
  · cases pre <;> simp [runCycle]
  · obtain ⟨bs, hbs, hall⟩ := politeSleep_blocks poll.toNat running
    cases latest with
    | none =>
      refine ⟨[], bs, ?_, ?_, hall⟩
      · simp [runCycle, hbs]
      · simp
    | some code =>
      by_cases h : some code = s.last
      · refine ⟨[], bs, ?_, ?_, hall⟩
        · simp [runCycle, h, hbs]
        · simp
      · refine ⟨[Event.notify code], bs, ?_, ?_, hall⟩
        · simp [runCycle, h, hbs]
        · simp [isNotifyEvent]

end Sora2Get
